import Mathlib

/-!
Verification of the task parsing and completion-state reconciliation engine
of simple_task_mcp.py.  The Python functions are shallowly embedded as
executable Lean definitions: the task file is an Option String (none when the
file is absent), the persisted state is the structure MState, and every tool
operation is a pure function from the file content and the state to a result.
-/

namespace SimpleTask

/-! Python-like character and string primitives, over List Char. -/

def pyIsSpace (c : Char) : Bool :=
  c == ' ' || c == '\t' || c == '\n' || c == '\r' || c == '\x0b' || c == '\x0c'

def pyRstripL (cs : List Char) : List Char :=
  ((cs.reverse).dropWhile pyIsSpace).reverse

def pyLstripL (cs : List Char) : List Char :=
  cs.dropWhile pyIsSpace

def pyStripL (cs : List Char) : List Char :=
  pyLstripL (pyRstripL cs)

def pyStrip (s : String) : String :=
  String.mk (pyStripL s.data)

/-- Python str.split with separator a newline: keeps empty parts. -/
def splitNl : List Char → List (List Char)
  | [] => [[]]
  | c :: rest =>
    if c = '\n' then [] :: splitNl rest
    else
      match splitNl rest with
      | [] => [[c]]
      | l :: ls => (c :: l) :: ls

/-- Python startswith for the one-character comment marker. -/
def startsWithHash (s : String) : Bool :=
  match s.data with
  | [] => false
  | c :: _ => c = '#'

/-- First line of a task, as displayed: split on newline, first part, stripped. -/
def firstLine (s : String) : String :=
  String.mk (pyStripL ((splitNl s.data).headD []))

/-! The shared blank-line block splitter of load_tasks_raw and
get_current_task_hashes: lines are right-stripped, a blank line flushes the
accumulated block as the stripped newline-join of its lines, and a trailing
block is flushed at end of input. -/

def blockContent (cur : List (List Char)) : List Char :=
  pyStripL (List.intercalate ['\n'] cur)

def blocksLoop : List (List Char) → List (List Char) → List (List Char)
  | [], cur => if cur.isEmpty then [] else [blockContent cur]
  | l :: ls, cur =>
    let l2 := pyRstripL l
    if (pyStripL l2).isEmpty then
      if cur.isEmpty then blocksLoop ls []
      else blockContent cur :: blocksLoop ls []
    else blocksLoop ls (cur ++ [l2])

def blocksStr (raw : String) : List String :=
  (blocksLoop (splitNl raw.data) []).map (fun cs => String.mk cs)

/-! UTF-8 encoding of a string as a byte list, as Python encode does. -/

def utf8Char (n : Nat) : List Nat :=
  if n < 128 then [n]
  else if n < 2048 then [192 + n / 64, 128 + n % 64]
  else if n < 65536 then [224 + n / 4096, 128 + (n / 64) % 64, 128 + n % 64]
  else [240 + n / 262144, 128 + (n / 4096) % 64, 128 + (n / 64) % 64, 128 + n % 64]

def utf8Bytes (s : String) : List Nat :=
  (s.data.map (fun c => utf8Char c.toNat)).flatten

/-! MD5 (RFC 1321) over byte lists, with 32-bit words as Nat reduced mod 2^32. -/

def md5S : List Nat :=
  [7, 12, 17, 22, 7, 12, 17, 22, 7, 12, 17, 22, 7, 12, 17, 22,
   5, 9, 14, 20, 5, 9, 14, 20, 5, 9, 14, 20, 5, 9, 14, 20,
   4, 11, 16, 23, 4, 11, 16, 23, 4, 11, 16, 23, 4, 11, 16, 23,
   6, 10, 15, 21, 6, 10, 15, 21, 6, 10, 15, 21, 6, 10, 15, 21]

def md5K : List Nat :=
  [0xd76aa478, 0xe8c7b756, 0x242070db, 0xc1bdceee,
   0xf57c0faf, 0x4787c62a, 0xa8304613, 0xfd469501,
   0x698098d8, 0x8b44f7af, 0xffff5bb1, 0x895cd7be,
   0x6b901122, 0xfd987193, 0xa679438e, 0x49b40821,
   0xf61e2562, 0xc040b340, 0x265e5a51, 0xe9b6c7aa,
   0xd62f105d, 0x02441453, 0xd8a1e681, 0xe7d3fbc8,
   0x21e1cde6, 0xc33707d6, 0xf4d50d87, 0x455a14ed,
   0xa9e3e905, 0xfcefa3f8, 0x676f02d9, 0x8d2a4c8a,
   0xfffa3942, 0x8771f681, 0x6d9d6122, 0xfde5380c,
   0xa4beea44, 0x4bdecfa9, 0xf6bb4b60, 0xbebfbc70,
   0x289b7ec6, 0xeaa127fa, 0xd4ef3085, 0x04881d05,
   0xd9d4d039, 0xe6db99e5, 0x1fa27cf8, 0xc4ac5665,
   0xf4292244, 0x432aff97, 0xab9423a7, 0xfc93a039,
   0x655b59c3, 0x8f0ccc92, 0xffeff47d, 0x85845dd1,
   0x6fa87e4f, 0xfe2ce6e0, 0xa3014314, 0x4e0811a1,
   0xf7537e82, 0xbd3af235, 0x2ad7d2bb, 0xeb86d391]

def w32 : Nat := 4294967296

def bnot32 (x : Nat) : Nat := 4294967295 ^^^ x

def rotl32 (x s : Nat) : Nat :=
  ((x <<< s) % w32) ||| (x >>> (32 - s))

/-- Pad the message: 0x80, zeros to 56 mod 64, then the 8-byte little-endian
bit length. -/
def md5Pad (m : List Nat) : List Nat :=
  let L := m.length
  let z := (120 - ((L + 1) % 64)) % 64
  m ++ [128] ++ List.replicate z 0 ++
    (List.range 8).map (fun i => ((8 * L) % 18446744073709551616) / (256 ^ i) % 256)

/-- Split a byte list into chunks of 64 bytes. -/
def chunks64Aux : List Nat → List Nat → List (List Nat)
  | [], acc => if acc.isEmpty then [] else [acc.reverse]
  | b :: rest, acc =>
    if acc.length = 63 then (acc.reverse ++ [b]) :: chunks64Aux rest []
    else chunks64Aux rest (b :: acc)

def chunks64 (m : List Nat) : List (List Nat) := chunks64Aux m []

/-- The j-th little-endian 32-bit word of a 64-byte chunk. -/
def md5Word (chunk : List Nat) (j : Nat) : Nat :=
  chunk.getD (4 * j) 0 + 256 * chunk.getD (4 * j + 1) 0 +
    65536 * chunk.getD (4 * j + 2) 0 + 16777216 * chunk.getD (4 * j + 3) 0

def md5Round (chunk : List Nat) (st : Nat × Nat × Nat × Nat) (i : Nat) :
    Nat × Nat × Nat × Nat :=
  let a := st.1
  let b := st.2.1
  let c := st.2.2.1
  let d := st.2.2.2
  let f :=
    if i < 16 then (b &&& c) ||| (bnot32 b &&& d)
    else if i < 32 then (d &&& b) ||| (bnot32 d &&& c)
    else if i < 48 then b ^^^ c ^^^ d
    else c ^^^ (b ||| bnot32 d)
  let g :=
    if i < 16 then i
    else if i < 32 then (5 * i + 1) % 16
    else if i < 48 then (3 * i + 5) % 16
    else (7 * i) % 16
  let x := (f + a + md5K.getD i 0 + md5Word chunk g) % w32
  (d, (b + rotl32 x (md5S.getD i 0)) % w32, b, c)

def md5Chunk (h : Nat × Nat × Nat × Nat) (chunk : List Nat) :
    Nat × Nat × Nat × Nat :=
  let r := (List.range 64).foldl (md5Round chunk) h
  ((h.1 + r.1) % w32, (h.2.1 + r.2.1) % w32,
   (h.2.2.1 + r.2.2.1) % w32, (h.2.2.2 + r.2.2.2) % w32)

def le32 (x : Nat) : List Nat :=
  [x % 256, (x / 256) % 256, (x / 65536) % 256, (x / 16777216) % 256]

/-- The sixteen digest bytes of a byte message. -/
def md5Bytes (m : List Nat) : List Nat :=
  let r := (chunks64 (md5Pad m)).foldl md5Chunk
    (0x67452301, 0xefcdab89, 0x98badcfe, 0x10325476)
  le32 r.1 ++ le32 r.2.1 ++ le32 r.2.2.1 ++ le32 r.2.2.2

def hexChars : List Char :=
  "0123456789abcdef".data

def hexDigit (n : Nat) : Char := hexChars.getD n '0'

def byteHex (b : Nat) : List Char := [hexDigit ((b / 16) % 16), hexDigit (b % 16)]

/-- Lowercase hex digest of a byte message, as Python hexdigest. -/
def md5Hex (m : List Nat) : List Char :=
  ((md5Bytes m).map byteHex).flatten

/-- generate_task_hash: md5 of the UTF-8 bytes, first 8 hex characters. -/
def generate_task_hash (task_content : String) : String :=
  String.mk ((md5Hex (utf8Bytes task_content)).take 8)

/-! The two readers of the task file.  The file is modelled as Option String:
none when the file does not exist on disk. -/

inductive LoadErr where
  | notFound
  | empty
  deriving DecidableEq, Repr

end SimpleTask

deriving instance DecidableEq for Except

namespace SimpleTask

/-- load_tasks_raw: FileNotFoundError when the file is absent, the blank-line
separated blocks otherwise, ValueError (empty) when no block remains.
Comment blocks are NOT filtered here. -/
def load_tasks_raw : Option String → Except LoadErr (List String)
  | none => Except.error LoadErr.notFound
  | some raw =>
    let tasks := blocksStr raw
    if tasks.isEmpty then Except.error LoadErr.empty else Except.ok tasks

/-- The loop of get_current_task_hashes over the blocks: a non-comment block
gets the next index and its hash, a comment block is skipped without
consuming an index. -/
def hashBlocks : List String → Int → List (Int × String)
  | [], _ => []
  | b :: bs, i =>
    if startsWithHash b then hashBlocks bs i
    else (i, generate_task_hash b) :: hashBlocks bs (i + 1)

/-- get_current_task_hashes: an empty mapping when the file is absent,
otherwise index to hash over the comment-filtered blocks. -/
def get_current_task_hashes : Option String → List (Int × String)
  | none => []
  | some raw => hashBlocks (blocksStr raw) 0

def clamp_index (idx n : Int) : Int :=
  if idx < 0 then 0 else if idx > n then n else idx

/-! The in-memory working state.  Keys absent from the Python dict behave
exactly as their defaults (index 0, empty sets, empty mapping) at every
read site of the core, so the state is modelled with total fields. -/

structure MState where
  index : Int
  completed_tasks : Finset Int
  completed_hashes : Finset String
  task_hashes : List (Int × String)
  deriving DecidableEq

/-- Python dict assignment d[k] = v on an insertion-ordered association list. -/
def dictInsert : List (Int × String) → Int → String → List (Int × String)
  | [], k, v => [(k, v)]
  | (k2, v2) :: rest, k, v =>
    if k2 = k then (k, v) :: rest else (k2, v2) :: dictInsert rest k v

/-- sync_state_with_tasks: recomputes the current hashes, keeps exactly the
indices and hashes whose hash occurs among the previously completed hashes,
replaces task_hashes wholesale, and moves the index down to the task count
when it is at least the task count.  Saving the state is modelled by
returning the new state. -/
def sync_state_with_tasks (file : Option String) (st : MState) : MState :=
  { index :=
      if ((get_current_task_hashes file).length : Int) ≤ st.index
      then ((get_current_task_hashes file).length : Int) else st.index
    completed_tasks :=
      (((get_current_task_hashes file).filter
          (fun p => decide (p.2 ∈ st.completed_hashes))).map Prod.fst).toFinset
    completed_hashes :=
      (((get_current_task_hashes file).filter
          (fun p => decide (p.2 ∈ st.completed_hashes))).map Prod.snd).toFinset
    task_hashes := get_current_task_hashes file }

inductive ToolErr where
  | notFound
  | empty
  | indexError
  deriving DecidableEq, Repr

/-- tasks_complete: loads the raw task list (comments included), clamps the
argument to the inclusive range up to the list length, reads the block at
that position (an index error when the clamped value equals the length),
and records the position, its hash, and the hash under that position. -/
def tasks_complete (file : Option String) (st : MState) (index : Int) :
    Except ToolErr MState :=
  match load_tasks_raw file with
  | Except.error LoadErr.notFound => Except.error ToolErr.notFound
  | Except.error LoadErr.empty => Except.error ToolErr.empty
  | Except.ok steps =>
    let n := clamp_index index (steps.length : Int)
    match steps.get? n.toNat with
    | none => Except.error ToolErr.indexError
    | some task_content =>
      let h := generate_task_hash task_content
      Except.ok { st with
        completed_tasks := insert n st.completed_tasks
        completed_hashes := insert h st.completed_hashes
        task_hashes := dictInsert st.task_hashes n h }

/-- Outcome of tasks_uncomplete.  removedCrash records that the position was
removed and the state saved, after which rendering the message raised an
index error. -/
inductive UncompleteResult where
  | removed (st : MState) (firstLineShown : String)
  | removedCrash (st : MState)
  | noop
  deriving DecidableEq

def tasks_uncomplete (file : Option String) (st : MState) (index : Int) :
    Except LoadErr UncompleteResult :=
  match load_tasks_raw file with
  | Except.error e => Except.error e
  | Except.ok steps =>
    let n := clamp_index index (steps.length : Int)
    if n ∈ st.completed_tasks then
      match steps.get? n.toNat with
      | some content =>
        Except.ok (UncompleteResult.removed
          { st with completed_tasks := st.completed_tasks.erase n }
          (firstLine content))
      | none =>
        Except.ok (UncompleteResult.removedCrash
          { st with completed_tasks := st.completed_tasks.erase n })
    else Except.ok UncompleteResult.noop

/-- The state visible after a tasks_uncomplete outcome. -/
def uncompleteState (st : MState) : UncompleteResult → MState
  | UncompleteResult.removed st2 _ => st2
  | UncompleteResult.removedCrash st2 => st2
  | UncompleteResult.noop => st

/-- Outcome of tasks_auto: the early all-done return, the invalid-count
return, or a run with the list of touched positions. -/
inductive AutoResult where
  | allDone
  | invalidCount
  | ran (touched : List Int)
  deriving DecidableEq, Repr

/-- Python range from a over k consecutive integers. -/
def intRangeFrom (a : Int) : Nat → List Int
  | 0 => []
  | k + 1 => a :: intRangeFrom (a + 1) k

/-- tasks_auto.  The rule-annotated task list the Python code also loads has
the same length as the raw list and only shapes the returned text.  The loop
reads the raw list at each touched position (for display) before marking the
position complete, in ascending order; Python indexing accepts negative
positions down to the negated length, so a stored index below the negated
task count raises IndexError on the first iteration, before any completion
mark, index change, or save. -/
def tasks_auto (file : Option String) (st : MState) (countArg : Option Int) :
    Except ToolErr (MState × AutoResult) :=
  match load_tasks_raw file with
  | Except.error LoadErr.notFound => Except.error ToolErr.notFound
  | Except.error LoadErr.empty => Except.error ToolErr.empty
  | Except.ok steps_raw =>
    let current_index := st.index
    let total : Int := (steps_raw.length : Int)
    if total ≤ current_index then Except.ok (st, AutoResult.allDone)
    else
      let remaining := total - current_index
      let count0 := match countArg with
        | none => remaining
        | some c => c
      let count := if remaining < count0 then remaining else count0
      if count ≤ 0 then Except.ok (st, AutoResult.invalidCount)
      else
        if current_index < -total then Except.error ToolErr.indexError
        else
          let touched := (intRangeFrom current_index count.toNat).filter
            (fun i => decide (i < total))
          Except.ok
            ({ st with
               completed_tasks := st.completed_tasks ∪ touched.toFinset
               index := current_index + count },
             AutoResult.ran touched)

/-- The count resolution of batch advance as the specification words it:
the minimum of the requested count (defaulting to the remaining count) and
the remaining count.  Declared for comparing tasks_auto against the
specification. -/
def specResolvedCount (total idx : Int) (countArg : Option Int) : Int :=
  min (countArg.getD (total - idx)) (total - idx)

/-! General lemmas about the string primitives, the digest shape, and
integer ranges. -/

theorem dropWhile_dropWhile {α} (p : α → Bool) (l : List α) :
    (l.dropWhile p).dropWhile p = l.dropWhile p := by
  induction l with
  | nil => rfl
  | cons a t ih =>
    simp only [List.dropWhile_cons]
    split_ifs with h
    · exact ih
    · simp only [List.dropWhile_cons, if_neg h]

theorem dropWhile_head?_false {α} (p : α → Bool) (l : List α) (c : α)
    (h : (l.dropWhile p).head? = some c) : p c = false := by
  induction l with
  | nil => simp [List.dropWhile] at h
  | cons a t ih =>
    rw [List.dropWhile_cons] at h
    split_ifs at h with ha
    · exact ih h
    · simp only [List.head?_cons, Option.some.injEq] at h
      rw [← h]
      simpa using ha

theorem pyRstripL_eq_self (l : List Char)
    (h : ∀ c, l.getLast? = some c → pyIsSpace c = false) : pyRstripL l = l := by
  unfold pyRstripL
  cases hr : l.reverse with
  | nil =>
    have : l = [] := by simpa using congrArg List.reverse hr
    simp [this]
  | cons a t =>
    have ha : pyIsSpace a = false := by
      apply h
      rw [List.getLast?_eq_head?_reverse, hr]
      rfl
    rw [List.dropWhile_cons, if_neg (by simp [ha]), ← hr, List.reverse_reverse]

theorem pyRstripL_getLast? (l : List Char) (c : Char)
    (h : (pyRstripL l).getLast? = some c) : pyIsSpace c = false := by
  rw [List.getLast?_eq_head?_reverse, pyRstripL, List.reverse_reverse] at h
  exact dropWhile_head?_false _ _ _ h

theorem suffix_getLast? {α} {l1 l2 : List α} (h : l2 <:+ l1) (hne : l2 ≠ []) :
    l2.getLast? = l1.getLast? := by
  obtain ⟨t, rfl⟩ := h
  rw [List.getLast?_append_of_ne_nil _ hne]

/-- Python strip is idempotent. -/
theorem pyStripL_idem (l : List Char) : pyStripL (pyStripL l) = pyStripL l := by
  unfold pyStripL
  have h1 : pyRstripL (pyLstripL (pyRstripL l)) = pyLstripL (pyRstripL l) := by
    by_cases hne : pyLstripL (pyRstripL l) = []
    · rw [hne]; decide
    · apply pyRstripL_eq_self
      intro c hc
      have hs : pyLstripL (pyRstripL l) <:+ pyRstripL l := List.dropWhile_suffix _
      rw [suffix_getLast? hs hne] at hc
      exact pyRstripL_getLast? l c hc
  rw [h1]
  exact dropWhile_dropWhile _ _

theorem blocksLoop_mem_strip (ls : List (List Char)) :
    ∀ (cur : List (List Char)) (cs : List Char),
      cs ∈ blocksLoop ls cur → ∃ z, cs = pyStripL z := by
  induction ls with
  | nil =>
    intro cur cs h
    simp only [blocksLoop] at h
    split_ifs at h with hc
    · simp at h
    · simp only [List.mem_singleton] at h
      exact ⟨List.intercalate ['\n'] cur, h⟩
  | cons l t ih =>
    intro cur cs h
    simp only [blocksLoop] at h
    split_ifs at h with hA hB
    · exact ih _ _ h
    · rcases List.mem_cons.mp h with h1 | h2
      · exact ⟨List.intercalate ['\n'] cur, h1⟩
      · exact ih _ _ h2
    · exact ih _ _ h

/-- Every block the splitter emits is already stripped of leading and
trailing whitespace, blank lines included. -/
theorem blocksStr_mem_trimmed (raw : String) (b : String) (hb : b ∈ blocksStr raw) :
    pyStrip b = b := by
  simp only [blocksStr, List.mem_map] at hb
  obtain ⟨cs, hcs, rfl⟩ := hb
  obtain ⟨z, rfl⟩ := blocksLoop_mem_strip _ _ _ hcs
  simp only [pyStrip]
  rw [pyStripL_idem]

theorem sum_map_two {α} (l : List α) : (l.map (fun _ => 2)).sum = 2 * l.length := by
  induction l with
  | nil => rfl
  | cons a t ih => simp [ih]; omega

theorem md5Bytes_length (m : List Nat) : (md5Bytes m).length = 16 := by
  simp [md5Bytes, le32]

theorem md5Hex_length (m : List Nat) : (md5Hex m).length = 32 := by
  simp only [md5Hex, List.length_flatten, List.map_map]
  have h : (md5Bytes m).map (List.length ∘ byteHex) = (md5Bytes m).map (fun _ => 2) := by
    apply List.map_congr_left
    intro a _
    rfl
  rw [h, sum_map_two, md5Bytes_length]

theorem generate_task_hash_length (s : String) : (generate_task_hash s).length = 8 := by
  show ((md5Hex (utf8Bytes s)).take 8).length = 8
  rw [List.length_take, md5Hex_length]
  decide

theorem hexDigit_mem (n : Nat) : hexDigit n ∈ hexChars := by
  unfold hexDigit
  rw [List.getD_eq_getElem?_getD]
  cases h : hexChars[n]? with
  | none => simp [h]; decide
  | some c =>
    simp only [h, Option.getD_some]
    exact List.getElem?_mem h

theorem generate_task_hash_hex (s : String) (c : Char)
    (hc : c ∈ (generate_task_hash s).data) : c ∈ hexChars := by
  have h1 : c ∈ md5Hex (utf8Bytes s) := List.take_subset _ _ hc
  rw [md5Hex, List.mem_flatten] at h1
  obtain ⟨l, hl, hcl⟩ := h1
  rw [List.mem_map] at hl
  obtain ⟨b, _, rfl⟩ := hl
  rcases hcl with _ | ⟨_, _ | ⟨_, h⟩⟩
  · exact hexDigit_mem _
  · exact hexDigit_mem _
  · cases h

theorem intRangeFrom_mem_bounds :
    ∀ (k : Nat) (a i : Int), i ∈ intRangeFrom a k → a ≤ i ∧ i < a + (k : Int)
  | 0, a, i, h => by simp [intRangeFrom] at h
  | k + 1, a, i, h => by
    simp only [intRangeFrom, List.mem_cons] at h
    rcases h with rfl | h
    · omega
    · have := intRangeFrom_mem_bounds k (a + 1) i h
      push_cast at *
      omega

/-! Claims.  Concrete evaluations are settled by kernel computation. -/

set_option maxRecDepth 1000000

/-- Claim C1, counterexample: raw-mode parsing does not drop the comment
block and the comment does consume a position: the file with the three
blocks comment, Task A, Task B parses to three records with the comment at
position 0 and Task A at position 1, not to two records with Task A at
position 0. -/
theorem c1_counterexample :
    load_tasks_raw (some "# comment\n\nTask A\n\nTask B")
        = Except.ok ["# comment", "Task A", "Task B"]
    ∧ (load_tasks_raw (some "# comment\n\nTask A\n\nTask B")).map List.length
        ≠ Except.ok 2 := by decide

/-- Claim C1, amended: load_tasks_raw keeps comment blocks, which consume
raw positions; blocks are dropped without consuming a position only in the
fingerprint map get_current_task_hashes, which for the same file assigns
position 0 to Task A and position 1 to Task B. -/
theorem c1_amended_comment_positions :
    load_tasks_raw (some "# comment\n\nTask A\n\nTask B")
        = Except.ok ["# comment", "Task A", "Task B"]
    ∧ get_current_task_hashes (some "# comment\n\nTask A\n\nTask B")
        = [(0, generate_task_hash "Task A"), (1, generate_task_hash "Task B")] := by
  decide

/-- Claim C2, counterexample: reconciliation does remove elements from
completed_hashes: a persisted hash that no longer occurs among the current
fingerprints is dropped, so the history is not carried forward unchanged. -/
theorem c2_counterexample :
    (sync_state_with_tasks (some "") ⟨0, ∅, {"deadbeef"}, []⟩).completed_hashes
      ≠ ({"deadbeef"} : Finset String) := by decide

/-- Claim C3, counterexample: the fingerprint recomputation read silently
returns an empty mapping when the task file is absent instead of failing
with a NotFound error, and a file holding only a comment block parses to
that comment as a record instead of failing with an Empty error. -/
theorem c3_counterexample :
    get_current_task_hashes none = []
    ∧ load_tasks_raw (some "# only a comment") = Except.ok ["# only a comment"] := by
  decide

/-- Claim C4: complete with an argument at least the raw task count fails
with an index error, because the clamp is to the inclusive range up to the
count and the task at the clamped position is then read; in range
(including negative arguments, clamped to 0) it succeeds and records the
position, its fingerprint, and the fingerprint at that position. -/
theorem c4_complete_out_of_range_crash :
    tasks_complete (some "A") ⟨0, ∅, ∅, []⟩ 1 = Except.error ToolErr.indexError
    ∧ tasks_complete (some "A") ⟨0, ∅, ∅, []⟩ 0
        = Except.ok ⟨0, {0}, {generate_task_hash "A"}, [(0, generate_task_hash "A")]⟩
    ∧ tasks_complete (some "A") ⟨0, ∅, ∅, []⟩ (-5)
        = Except.ok ⟨0, {0}, {generate_task_hash "A"}, [(0, generate_task_hash "A")]⟩ := by
  decide

/-- Claim C6, counterexample: reconciliation does not clamp a negative
stored index: with one current task and stored index -3, the index after
reconciliation is still -3, outside the inclusive range from 0 to the task
count. -/
theorem c6_counterexample :
    (sync_state_with_tasks (some "A") ⟨-3, ∅, ∅, []⟩).index = -3
    ∧ ¬ (0 ≤ (sync_state_with_tasks (some "A") ⟨-3, ∅, ∅, []⟩).index) := by decide

/-- Claim C7, counterexample: after uncompleting position 1 (content Task A,
preceded by a comment block), reconciliation with the unchanged file does
not put 1 back into completed_tasks: the retained fingerprint re-marks the
comment-filtered position 0 instead. -/
theorem c7_counterexample :
    tasks_uncomplete (some "# c\n\nA")
        ⟨0, {1}, {generate_task_hash "A"}, [(1, generate_task_hash "A")]⟩ 1
      = Except.ok (UncompleteResult.removed
          ⟨0, ∅, {generate_task_hash "A"}, [(1, generate_task_hash "A")]⟩ "A")
    ∧ (sync_state_with_tasks (some "# c\n\nA")
        ⟨0, ∅, {generate_task_hash "A"}, [(1, generate_task_hash "A")]⟩).completed_tasks
      = {0}
    ∧ (1 : Int) ∉ ({0} : Finset Int) := by decide

/-- Claim C8, counterexample: with one task and index 1, every count
resolves to at most the remaining 0, yet the operation does not fail with
an invalid-argument signal: it returns the early all-done outcome, leaving
the state unchanged. -/
theorem c8_counterexample :
    tasks_auto (some "A") ⟨1, ∅, ∅, []⟩ (some 0)
        = Except.ok (⟨1, ∅, ∅, []⟩, AutoResult.allDone)
    ∧ AutoResult.allDone ≠ AutoResult.invalidCount := by decide

/-- Claim C9, counterexample: generate_task_hash is not invariant under
adding leading and trailing blank lines to its argument: the digests of A
and of A surrounded by blank lines differ already in their first 8 hex
characters. -/
theorem c9_counterexample :
    generate_task_hash "A" = "7fc56270"
    ∧ generate_task_hash "\nA\n" = "5ce343da"
    ∧ generate_task_hash "A" ≠ generate_task_hash "\nA\n" := by decide

/-- Claim C10: completion marking and reconciliation use different index
spaces when the file has comment blocks: the raw parse of the file with
blocks comment and A keeps the comment at position 0 and A at position 1,
the fingerprint map assigns A the filtered position 0, and completing
position 1 followed by reconciliation yields completed_tasks containing
exactly the filtered position 0. -/
theorem c10_index_space_mismatch :
    load_tasks_raw (some "# c\n\nA") = Except.ok ["# c", "A"]
    ∧ get_current_task_hashes (some "# c\n\nA") = [(0, generate_task_hash "A")]
    ∧ tasks_complete (some "# c\n\nA") ⟨0, ∅, ∅, []⟩ 1
        = Except.ok ⟨0, {1}, {generate_task_hash "A"}, [(1, generate_task_hash "A")]⟩
    ∧ (tasks_complete (some "# c\n\nA") ⟨0, ∅, ∅, []⟩ 1).map
        (fun st => (sync_state_with_tasks (some "# c\n\nA") st).completed_tasks)
        = Except.ok {0} := by decide

/-- Claim C2, amended: reconciliation replaces completed_hashes by its
intersection with the fingerprints of the current task list: a hash
survives exactly when it was already recorded and its content is still
present, so the history is pruned rather than carried forward unchanged. -/
theorem c2_amended_hashes_intersection (file : Option String) (st : MState)
    (s : String) :
    s ∈ (sync_state_with_tasks file st).completed_hashes ↔
      s ∈ st.completed_hashes ∧ ∃ k, (k, s) ∈ get_current_task_hashes file := by
  simp only [sync_state_with_tasks, List.mem_toFinset, List.mem_map, List.mem_filter]
  constructor
  · rintro ⟨⟨k, v⟩, ⟨hk, hv⟩, rfl⟩
    exact ⟨of_decide_eq_true hv, k, hk⟩
  · rintro ⟨hs, k, hk⟩
    exact ⟨(k, s), ⟨hk, decide_eq_true hs⟩, rfl⟩

/-- Witness: with a now empty task file, a recorded hash is pruned because
no current entry carries it. -/
theorem c2_amended_hashes_intersection_witness :
    ("deadbeef" ∈ (sync_state_with_tasks (some "")
        ⟨0, ∅, {"deadbeef"}, []⟩).completed_hashes)
      ↔ ("deadbeef" ∈ ({"deadbeef"} : Finset String)
          ∧ ∃ k, ((k, "deadbeef") ∈ get_current_task_hashes (some ""))) :=
  c2_amended_hashes_intersection (some "") ⟨0, ∅, {"deadbeef"}, []⟩ "deadbeef"

/-- Claim C3, amended: load_tasks_raw fails with NotFound when the file is
absent and with Empty exactly when no block at all remains after splitting,
comment blocks included; the fingerprint recomputation read silently
returns an empty mapping for an absent file instead of failing. -/
theorem c3_amended_read_errors :
    load_tasks_raw none = Except.error LoadErr.notFound
    ∧ get_current_task_hashes none = []
    ∧ ∀ raw, (load_tasks_raw (some raw) = Except.error LoadErr.empty ↔
        blocksStr raw = []) := by
  refine ⟨rfl, rfl, fun raw => ?_⟩
  simp only [load_tasks_raw]
  rcases h : blocksStr raw with _ | ⟨b, bs⟩ <;> simp [h]

/-- Witness: a file of one space holds no block, so parsing reports Empty. -/
theorem c3_amended_read_errors_witness :
    load_tasks_raw (some " ") = Except.error LoadErr.empty :=
  (c3_amended_read_errors.2.2 " ").mpr (by decide)

/-- Claim C5: reconciliation is idempotent: with the task file unchanged
between the two runs, reconciling twice equals reconciling once. -/
theorem c5_sync_idempotent (file : Option String) (st : MState) :
    sync_state_with_tasks file (sync_state_with_tasks file st)
      = sync_state_with_tasks file st := by
  have hmem : ∀ p ∈ get_current_task_hashes file,
      decide (p.2 ∈ (sync_state_with_tasks file st).completed_hashes)
        = decide (p.2 ∈ st.completed_hashes) := by
    intro p hp
    rw [decide_eq_decide]
    simp only [sync_state_with_tasks, List.mem_toFinset, List.mem_map, List.mem_filter]
    constructor
    · rintro ⟨q, ⟨hqH, hq⟩, hq2⟩
      rw [← hq2]
      exact of_decide_eq_true hq
    · intro hps
      exact ⟨p, ⟨hp, decide_eq_true hps⟩, rfl⟩
  have hfilter := List.filter_congr hmem
  simp only [sync_state_with_tasks] at hfilter ⊢
  rw [hfilter]
  congr 1
  split_ifs <;> omega

/-- Claim C6, amended: reconciliation clamps the stored index only from
above: the resulting index is the minimum of the old index and the current
task count, hence at most the count, but a negative old index is kept. -/
theorem c6_amended_index_upper_clamp (file : Option String) (st : MState) :
    (sync_state_with_tasks file st).index
        = min st.index ((get_current_task_hashes file).length : Int)
    ∧ (sync_state_with_tasks file st).index
        ≤ ((get_current_task_hashes file).length : Int) := by
  simp only [sync_state_with_tasks]
  constructor
  · rw [min_def]
    split_ifs <;> omega
  · split_ifs <;> omega

/-- Claim C7, amended: uncomplete removes the clamped position from
completed_tasks and changes nothing else (completed_hashes, task_hashes and
the index are untouched); an absent position is a no-op; the retained
fingerprint makes a later reconciliation re-mark the comment-filtered
position of the content, which differs from the removed raw position when a
comment block precedes it. -/
theorem c7_amended_uncomplete_frame (file : Option String) (st : MState)
    (idx : Int) (steps : List String)
    (hload : load_tasks_raw file = Except.ok steps) :
    (clamp_index idx (steps.length : Int) ∈ st.completed_tasks →
      ∃ r, tasks_uncomplete file st idx = Except.ok r ∧
        uncompleteState st r
          = { st with completed_tasks :=
                st.completed_tasks.erase (clamp_index idx (steps.length : Int)) }) ∧
    (clamp_index idx (steps.length : Int) ∉ st.completed_tasks →
      tasks_uncomplete file st idx = Except.ok UncompleteResult.noop) ∧
    (sync_state_with_tasks (some "# c\n\nA")
        ⟨0, ∅, {generate_task_hash "A"}, [(1, generate_task_hash "A")]⟩).completed_tasks
      = {0} := by
  refine ⟨?_, ?_, by decide⟩
  · intro hmem
    cases hget : steps.get? (clamp_index idx (steps.length : Int)).toNat with
    | some content =>
      refine ⟨UncompleteResult.removed _ (firstLine content), ?_, rfl⟩
      simp only [tasks_uncomplete, hload, if_pos hmem, hget]
    | none =>
      refine ⟨UncompleteResult.removedCrash _, ?_, rfl⟩
      simp only [tasks_uncomplete, hload, if_pos hmem, hget]
  · intro hmem
    simp only [tasks_uncomplete, hload, if_neg hmem]

/-- Witness: uncompleting a position that is not recorded is a no-op. -/
theorem c7_amended_uncomplete_frame_witness :
    tasks_uncomplete (some "A") ⟨0, ∅, ∅, []⟩ 0 = Except.ok UncompleteResult.noop :=
  (c7_amended_uncomplete_frame (some "A") ⟨0, ∅, ∅, []⟩ 0 ["A"] (by decide)).2.1
    (by decide)

/-- Claim C8, amended: when the stored index is at least the task count,
batch advance returns the early all-done outcome with no state change and
no invalid-argument signal; below the count it resolves the count to the
minimum of the requested count (default remaining) and the remaining
count and reports invalid with no state change when the resolution is not
positive; with a positive resolution, a stored index below the negated
task count makes the display read of the first touched position fail with
an index error before any state change, and otherwise the operation
completes the resolved number of consecutive positions from the index,
advances the index by it, and returns those touched positions. -/
theorem c8_amended_auto_resolution (file : Option String) (st : MState)
    (countArg : Option Int) (steps : List String)
    (hload : load_tasks_raw file = Except.ok steps) :
    ((steps.length : Int) ≤ st.index →
        tasks_auto file st countArg = Except.ok (st, AutoResult.allDone)) ∧
    (st.index < (steps.length : Int) →
      (specResolvedCount (steps.length : Int) st.index countArg ≤ 0 →
          tasks_auto file st countArg = Except.ok (st, AutoResult.invalidCount)) ∧
      (0 < specResolvedCount (steps.length : Int) st.index countArg →
        (st.index < -(steps.length : Int) →
            tasks_auto file st countArg = Except.error ToolErr.indexError) ∧
        (-(steps.length : Int) ≤ st.index →
            tasks_auto file st countArg
              = Except.ok
                ({ st with
                   completed_tasks := st.completed_tasks ∪
                     (intRangeFrom st.index
                       (specResolvedCount (steps.length : Int) st.index
                         countArg).toNat).toFinset
                   index := st.index
                     + specResolvedCount (steps.length : Int) st.index countArg },
                 AutoResult.ran (intRangeFrom st.index
                   (specResolvedCount (steps.length : Int) st.index
                     countArg).toNat))))) := by
  have hspec_le : specResolvedCount (steps.length : Int) st.index countArg
      ≤ (steps.length : Int) - st.index := min_le_right _ _
  constructor
  · intro h
    simp only [tasks_auto, hload, if_pos h]
  · intro hlt
    cases countArg with
    | none =>
      have hcnt : specResolvedCount (steps.length : Int) st.index none
          = (steps.length : Int) - st.index := by
        simp [specResolvedCount]
      constructor
      · intro hle
        omega
      · intro hpos
        constructor
        · intro hcrash
          simp only [tasks_auto, hload,
            if_neg (by omega : ¬ (steps.length : Int) ≤ st.index)]
          split_ifs <;> first | rfl | omega
        · intro hok
          rw [hcnt]
          simp only [tasks_auto, hload,
            if_neg (by omega : ¬ (steps.length : Int) ≤ st.index)]
          have hfilt : (intRangeFrom st.index ((steps.length : Int) - st.index).toNat).filter
                (fun i => decide (i < (steps.length : Int)))
              = intRangeFrom st.index ((steps.length : Int) - st.index).toNat := by
            rw [List.filter_eq_self]
            intro a ha
            have hb := intRangeFrom_mem_bounds _ _ _ ha
            simp only [decide_eq_true_eq]
            omega
          split_ifs <;> first | (rw [hfilt]) | omega
    | some c =>
      have hcnt : specResolvedCount (steps.length : Int) st.index (some c)
          = min c ((steps.length : Int) - st.index) := by
        simp [specResolvedCount]
      rw [hcnt]
      constructor
      · intro hle
        simp only [tasks_auto, hload,
          if_neg (by omega : ¬ (steps.length : Int) ≤ st.index)]
        split_ifs <;> first | rfl | omega
      · intro hpos
        constructor
        · intro hcrash
          simp only [tasks_auto, hload,
            if_neg (by omega : ¬ (steps.length : Int) ≤ st.index)]
          split_ifs <;> first | rfl | omega
        · intro hok
          simp only [tasks_auto, hload,
            if_neg (by omega : ¬ (steps.length : Int) ≤ st.index)]
          have hfilt : ∀ k : Nat, ((k : Int) ≤ (steps.length : Int) - st.index) →
              (intRangeFrom st.index k).filter (fun i => decide (i < (steps.length : Int)))
                = intRangeFrom st.index k := by
            intro k hk
            rw [List.filter_eq_self]
            intro a ha
            have hb := intRangeFrom_mem_bounds _ _ _ ha
            simp only [decide_eq_true_eq]
            omega
          split_ifs with h1 h2 h3 h2 h3
          · omega
          · omega
          · rw [hfilt _ (by omega)]
            have hmin : (steps.length : Int) - st.index
                = min c ((steps.length : Int) - st.index) := by omega
            rw [← hmin]
          · omega
          · omega
          · rw [hfilt _ (by omega)]
            have hmin : c = min c ((steps.length : Int) - st.index) := by omega
            rw [← hmin]

/-- Witness: with three tasks, index 0 and requested count 2, batch advance
completes positions 0 and 1 and moves the index to 2. -/
theorem c8_amended_auto_resolution_witness :
    tasks_auto (some "T0\n\nT1\n\nT2") ⟨0, ∅, ∅, []⟩ (some 2)
      = Except.ok (⟨2, {0, 1}, ∅, []⟩, AutoResult.ran [0, 1]) := by
  have h := (((c8_amended_auto_resolution (some "T0\n\nT1\n\nT2") ⟨0, ∅, ∅, []⟩
      (some 2) ["T0", "T1", "T2"] (by decide)).2 (by decide)).2 (by decide)).2 (by decide)
  rw [h]
  decide

/-- Claim C9, amended: generate_task_hash is deterministic and always
returns 8 lowercase hex characters; it is not invariant under blank lines
added around its raw argument, but every content the parser produces is
already stripped, so on parser output hashing commutes with stripping. -/
theorem c9_amended_hash_shape (s : String) (raw : String) (b : String)
    (hb : b ∈ blocksStr raw) :
    generate_task_hash s = generate_task_hash s
    ∧ (generate_task_hash s).length = 8
    ∧ (∀ c ∈ (generate_task_hash s).data, c ∈ hexChars)
    ∧ generate_task_hash b = generate_task_hash (pyStrip b) := by
  refine ⟨rfl, generate_task_hash_length s, fun c hc => generate_task_hash_hex s c hc, ?_⟩
  rw [blocksStr_mem_trimmed raw b hb]

/-- Witness: the single block of the one-line file A is its own stripped
form, so its hash equals the hash of its stripped form. -/
theorem c9_amended_hash_shape_witness :
    generate_task_hash "A" = generate_task_hash (pyStrip "A") :=
  (c9_amended_hash_shape "A" "A" "A" (by decide)).2.2.2

end SimpleTask
